import Mathlib

/-!
Verification of the impala-cpp-udf regex-masking UDFs.

The repository has two C++ source files:
 * `src/CachedRegexMaskingUdf.cc` — a two-argument UDF `mask(key, input)`
   with a static `RegexCache` (pattern catalog + compiled-regex map guarded
   by a mutex) and an asterisk-fill substitution loop;
 * `src/RegexMaskingUdf.cc` — a three-argument UDF
   `mask(key, input, mask_val)` whose `MaskState` (catalog + cache + mutex)
   lives in the FunctionContext, with `SetError` diagnostics on an
   unprepared state and on regex-compilation failure.

The embedding below is byte-faithful for ASCII data (one Lean `Char` per
input byte).  The three catalog patterns — `\d{4}`, the e-mail pattern and
`\d{6}-\d{7}` — are concatenations of character-class atoms with greedy
counted repetition, so `std::regex` ECMAScript matching specialises, for
exactly these patterns, to the greedy backtracking matcher `matchAtoms`
below: each atom tries the largest feasible repetition count first and
backtracks (rightmost choice point first) until the remaining atoms match.
`std::sregex_iterator` enumerates leftmost, non-overlapping matches,
resuming right after each match end; `searchFrom`/`maskLoop` model that
scan and the two substitution loops of the sources, which both copy every
unmatched span verbatim and emit one filler character per matched byte.
-/

/-- One regex atom: a character class repeated greedily between `min` and
`max` times (`max = none` means unbounded, as in `+` or `\x7b2,\x7d`). -/
structure Atom where
  cls : Char → Bool
  min : Nat
  max : Option Nat

/-- Number of leading characters of `s` satisfying `p` (the furthest a
greedy class repetition can reach). -/
def takeCount (p : Char → Bool) : List Char → Nat
  | [] => 0
  | c :: cs => if p c then takeCount p cs + 1 else 0

/-- Greedy backtracking over the repetition count of one atom: try `k`
repetitions (the caller starts at the largest feasible count), and if the
rest of the pattern fails on the remaining input, retry with one fewer,
never going below `mn`. -/
def tryAtom (mn : Nat) (matchRest : List Char → Option Nat)
    (s : List Char) : Nat → Option Nat
  | 0 => matchRest s
  | k + 1 =>
    match matchRest (s.drop (k + 1)) with
    | some n => some (k + 1 + n)
    | none => if k + 1 ≤ mn then none else tryAtom mn matchRest s k

/-- Length of the ECMAScript match of an atom sequence at the start of
`s`, or `none`.  Greedy: each atom starts at the largest count its class
allows here and backtracks rightmost-first — exactly the order
`std::regex` explores for these class-only patterns. -/
def matchAtoms : List Atom → List Char → Option Nat
  | [], _ => some 0
  | a :: rest, s =>
    let avail := takeCount a.cls s
    let most :=
      match a.max with
      | none => avail
      | some mx => min mx avail
    if most < a.min then none
    else tryAtom a.min (fun t => matchAtoms rest t) s most

/-- Leftmost search: position and length of the first match of `re` in
`s`, the way `std::sregex_iterator` reports `position()`/`length()`. -/
def searchFrom (re : List Atom) : List Char → Option (Nat × Nat)
  | [] =>
    match matchAtoms re [] with
    | some n => some (0, n)
    | none => none
  | c :: cs =>
    match matchAtoms re (c :: cs) with
    | some n => some (0, n)
    | none =>
      match searchFrom re cs with
      | some (p, n) => some (p + 1, n)
      | none => none

/-- The substitution loop shared by both sources (lines 54-60 of
`CachedRegexMaskingUdf.cc`, lines 124-133 of `RegexMaskingUdf.cc`): copy
the span before the match verbatim, emit `length` filler characters,
resume after the match end; when no match remains, append the rest.  The
fuel argument is a termination device; every catalog pattern matches at
least one character, so `length + 1` fuel is never exhausted. -/
def maskLoop (re : List Atom) (fill : Char) : Nat → List Char → List Char
  | 0, s => s
  | fuel + 1, s =>
    match searchFrom re s with
    | none => s
    | some (p, n) =>
      s.take p ++ List.replicate n fill ++ maskLoop re fill fuel (s.drop (p + n))

/-- String-level masking: run the substitution loop over the bytes. -/
def maskString (re : List Atom) (fill : Char) (s : String) : String :=
  String.mk (maskLoop re fill (s.data.length + 1) s.data)

/-- Class `\d` — ASCII digit. -/
def isDigitC (c : Char) : Bool := '0' ≤ c && c ≤ '9'

/-- Class `[a-zA-Z]`. -/
def isAlphaC (c : Char) : Bool := ('a' ≤ c && c ≤ 'z') || ('A' ≤ c && c ≤ 'Z')

/-- Class `[a-zA-Z0-9._%+-]` — the e-mail local-part class. -/
def localCls (c : Char) : Bool :=
  isAlphaC c || isDigitC c || c == '.' || c == '_' || c == '%' || c == '+' || c == '-'

/-- Class `[a-zA-Z0-9.-]` — the e-mail domain class. -/
def domCls (c : Char) : Bool :=
  isAlphaC c || isDigitC c || c == '.' || c == '-'

/-- Pattern source text `\d{4}` (key `APN`). -/
def apnSrc : String := "\\d\x7b4\x7d"

/-- Pattern source text `[a-zA-Z0-9._%+-]+@[a-zA-Z0-9.-]+\.[a-zA-Z]{2,}`
(key `EMAIL`). -/
def emailSrc : String := "[a-zA-Z0-9._%+-]+@[a-zA-Z0-9.-]+\\.[a-zA-Z]\x7b2,\x7d"

/-- Pattern source text `\d{6}-\d{7}` (key `SSN`). -/
def ssnSrc : String := "\\d\x7b6\x7d-\\d\x7b7\x7d"

/-- Compiled form of `\d{4}`. -/
def apnAtoms : List Atom := [⟨isDigitC, 4, some 4⟩]

/-- Compiled form of the e-mail pattern: local class `+`, literal `@`,
domain class `+`, literal `.`, alphabetic run of length at least 2. -/
def emailAtoms : List Atom :=
  [⟨localCls, 1, none⟩, ⟨fun c => c == '@', 1, some 1⟩,
   ⟨domCls, 1, none⟩, ⟨fun c => c == '.', 1, some 1⟩,
   ⟨isAlphaC, 2, none⟩]

/-- Compiled form of `\d{6}-\d{7}`. -/
def ssnAtoms : List Atom :=
  [⟨isDigitC, 6, some 6⟩, ⟨fun c => c == '-', 1, some 1⟩, ⟨isDigitC, 7, some 7⟩]

/-- Model of `new std::regex(src)` (ECMAScript).  The three pattern texts
that occur in this repository compile to their atom sequences; every other
source text is conservatively modelled as throwing `std::regex_error`, so
that the compilation-failure paths of both sources can be exercised (from
the fixed catalogs these paths are unreachable, because all three catalog
patterns are valid). -/
def compileRegex (src : String) : Except String (List Atom) :=
  if src = apnSrc then .ok apnAtoms
  else if src = emailSrc then .ok emailAtoms
  else if src = ssnSrc then .ok ssnAtoms
  else .error ("invalid regex: " ++ src)

namespace CachedRegexMaskingUdf

/-- The static pattern catalog `RegexCache::regex_patterns_` of
`CachedRegexMaskingUdf.cc` lines 31-35. -/
def regex_patterns : List (String × String) :=
  [("APN", apnSrc), ("EMAIL", emailSrc), ("SSN", ssnSrc)]

/-- The mutable static `RegexCache::regex_map_`: key to compiled pattern.
An association list stands for the `std::unordered_map`; only `find` and
`operator[]`-insert of an absent key are used, so lookup order is
equivalent.  The mutex that guards every access makes each `GetRegex`
call atomic, which the state-passing style models directly. -/
structure RegexCacheState where
  regex_map : List (String × List Atom)

/-- Method `RegexCache::GetRegex` (lines 12-28): under the lock, return the
cached compiled pattern; on a miss consult the catalog, compile and
insert on success, and return null both for an unknown key and — silently
— for a compilation failure (nothing is inserted in that case). -/
def GetRegex (st : RegexCacheState) (key : String) :
    Option (List Atom) × RegexCacheState :=
  match st.regex_map.lookup key with
  | some r => (some r, st)
  | none =>
    match regex_patterns.lookup key with
    | none => (none, st)
    | some src =>
      match compileRegex src with
      | .ok compiled => (some compiled, ⟨(key, compiled) :: st.regex_map⟩)
      | .error _ => (none, st)

/-- The two-argument `mask` UDF (lines 41-68): null arguments give null;
an unresolved pattern gives null; otherwise the substitution loop runs
with the fixed `'*'` filler and the result is copied out.  `Allocate` is
modelled as succeeding (the host's memory protocol is outside the spec's
scope), so the copy-out returns the computed string. -/
def mask (st : RegexCacheState) (key input : Option String) :
    Option String × RegexCacheState :=
  match key, input with
  | some k, some i =>
    match GetRegex st k with
    | (none, st') => (none, st')
    | (some pat, st') => (some (maskString pat '*' i), st')
  | _, _ => (none, st)

/-- The initial (empty) static cache. -/
def initCache : RegexCacheState := ⟨[]⟩

end CachedRegexMaskingUdf

namespace RegexMaskingUdf

/-- Struct `MaskState` of `RegexMaskingUdf.cc` (lines 12-23): the per-fragment
pattern catalog and compiled-regex cache.  The mutex makes the
lookup-or-compile block atomic, which the state-passing style models
directly. -/
structure MaskState where
  patterns : List (String × String)
  regex_cache : List (String × List Atom)

/-- The `MaskState` constructor (lines 18-22): the three catalog
patterns, empty cache. -/
def initMaskState : MaskState :=
  ⟨[("APN", apnSrc), ("EMAIL", emailSrc), ("SSN", ssnSrc)], []⟩

/-- The relevant slice of `FunctionContext`: the FRAGMENT_LOCAL function
state set by `MaskPrepare` (`none` when `Prepare` never ran) and the
sequence of messages passed to `SetError`. -/
structure Ctx where
  state : Option MaskState
  errors : List String

/-- The locked block of `mask` (lines 89-110): resolve the compiled
pattern for the key.  Result: the pattern (or `none`), the possibly
extended state, and the `SetError` message when compilation threw
(`regex_error`), in which case nothing is inserted. -/
def resolvePattern (st : MaskState) (key : String) :
    Option (List Atom) × MaskState × Option String :=
  match st.regex_cache.lookup key with
  | some r => (some r, st, none)
  | none =>
    match st.patterns.lookup key with
    | none => (none, st, none)
    | some src =>
      match compileRegex src with
      | .ok compiled =>
        (some compiled, ⟨st.patterns, (key, compiled) :: st.regex_cache⟩, none)
      | .error e => (none, st, some e)

/-- The three-argument `mask` UDF (lines 72-136): null arguments give
null with no side effect; a missing function state gives null after
`SetError("Masking UDF state not prepared.")`; then the locked block
resolves the pattern (a compile failure gives null after `SetError`);
an unresolved pattern gives null; a mask string whose length is not 1
gives null; otherwise the substitution loop runs with the mask character
and the result is copied out via `MakeStringVal` (lines 58-67), which
returns a non-null empty value for an empty result and is otherwise
modelled with allocation succeeding. -/
def mask (ctx : Ctx) (key input mask_val : Option String) :
    Option String × Ctx :=
  match key, input, mask_val with
  | some k, some i, some m =>
    match ctx.state with
    | none => (none, ⟨none, ctx.errors ++ ["Masking UDF state not prepared."]⟩)
    | some st =>
      match resolvePattern st k with
      | (_, st', some e) => (none, ⟨some st', ctx.errors ++ [e]⟩)
      | (none, st', none) => (none, ⟨some st', ctx.errors⟩)
      | (some pat, st', none) =>
        match m.data with
        | [c] => (some (maskString pat c i), ⟨some st', ctx.errors⟩)
        | _ => (none, ⟨some st', ctx.errors⟩)
  | _, _, _ => (none, ctx)

/-- A freshly prepared context, as left by `MaskPrepare` on the
FRAGMENT_LOCAL scope. -/
def initCtx : Ctx := ⟨some initMaskState, []⟩

end RegexMaskingUdf

/-- Model of N worker threads each calling the cached two-argument UDF with the
same key and input.  The mutex serialises the critical sections, so any
interleaving of the threads is one of these sequential orders; with all
threads making the identical call, the order is immaterial and one
representative serialisation captures them all.  Returns every thread's
result and the final cache. -/
def runThreads : Nat → CachedRegexMaskingUdf.RegexCacheState → String → String →
    List (Option String) × CachedRegexMaskingUdf.RegexCacheState
  | 0, st, _, _ => ([], st)
  | n + 1, st, k, i =>
    match CachedRegexMaskingUdf.mask st (some k) (some i) with
    | (r, st') =>
      match runThreads n st' k i with
      | (rs, stF) => (r :: rs, stF)

theorem takeCount_le (p : Char → Bool) : ∀ s : List Char, takeCount p s ≤ s.length
  | [] => Nat.le_refl 0
  | c :: cs => by
    simp only [takeCount, List.length_cons]
    split
    · exact Nat.succ_le_succ (takeCount_le p cs)
    · exact Nat.zero_le _

theorem tryAtom_some_le (mn : Nat) (f : List Char → Option Nat) (s : List Char)
    (hf : ∀ t n, f t = some n → n ≤ t.length) :
    ∀ k n, k ≤ s.length → tryAtom mn f s k = some n → n ≤ s.length := by
  intro k
  induction k with
  | zero =>
    intro n _ h
    simp only [tryAtom] at h
    exact hf s n h
  | succ k ih =>
    intro n hk h
    cases hfs : f (s.drop (k + 1)) with
    | some m =>
      simp only [tryAtom, hfs, Option.some.injEq] at h
      have := hf _ _ hfs
      simp only [List.length_drop] at this
      omega
    | none =>
      simp only [tryAtom, hfs] at h
      split at h
      · exact absurd h (by simp)
      · exact ih n (Nat.le_of_succ_le hk) h

theorem matchAtoms_some_le : ∀ (re : List Atom) (s : List Char) (n : Nat),
    matchAtoms re s = some n → n ≤ s.length := by
  intro re
  induction re with
  | nil =>
    intro s n h
    simp only [matchAtoms, Option.some.injEq] at h
    omega
  | cons a rest ih =>
    intro s n h
    simp only [matchAtoms] at h
    split at h
    · exact absurd h (by simp)
    · refine tryAtom_some_le a.min _ s (fun t m hm => ih t m hm) _ n ?_ h
      cases hmx : a.max with
      | none => simp only [hmx]; exact takeCount_le _ _
      | some mx =>
        simp only [hmx]
        exact le_trans (Nat.min_le_right _ _) (takeCount_le _ _)

theorem searchFrom_some_le : ∀ (re : List Atom) (s : List Char) (p n : Nat),
    searchFrom re s = some (p, n) → p + n ≤ s.length := by
  intro re s
  induction s with
  | nil =>
    intro p n h
    cases hm : matchAtoms re [] with
    | none =>
      simp only [searchFrom, hm] at h
      exact Option.noConfusion h
    | some m =>
      simp only [searchFrom, hm, Option.some.injEq, Prod.mk.injEq] at h
      obtain ⟨h1, h2⟩ := h
      subst h1
      have := matchAtoms_some_le re [] m hm
      simp only [List.length_nil] at this ⊢
      omega
  | cons c cs ih =>
    intro p n h
    cases hm : matchAtoms re (c :: cs) with
    | some m =>
      simp only [searchFrom, hm, Option.some.injEq, Prod.mk.injEq] at h
      obtain ⟨h1, h2⟩ := h
      subst h1
      have := matchAtoms_some_le re (c :: cs) m hm
      omega
    | none =>
      cases hs : searchFrom re cs with
      | none =>
        simp only [searchFrom, hm, hs] at h
        exact Option.noConfusion h
      | some pn =>
        obtain ⟨p', n'⟩ := pn
        simp only [searchFrom, hm, hs, Option.some.injEq, Prod.mk.injEq] at h
        obtain ⟨h1, h2⟩ := h
        subst h1
        subst h2
        have := ih p' n' hs
        simp only [List.length_cons]
        omega

theorem maskLoop_length (re : List Atom) (fill : Char) :
    ∀ (fuel : Nat) (s : List Char), (maskLoop re fill fuel s).length = s.length := by
  intro fuel
  induction fuel with
  | zero => intro s; rfl
  | succ fuel ih =>
    intro s
    cases hs : searchFrom re s with
    | none => simp only [maskLoop, hs]
    | some pn =>
      obtain ⟨p, n⟩ := pn
      have hb := searchFrom_some_le re s p n hs
      simp only [maskLoop, hs, List.length_append, List.length_take,
        List.length_replicate, ih, List.length_drop]
      omega

theorem maskString_length (re : List Atom) (fill : Char) (s : String) :
    (maskString re fill s).length = s.length := by
  show (maskLoop re fill (s.data.length + 1) s.data).length = s.data.length
  exact maskLoop_length re fill _ _

theorem maskLoop_getElem (re : List Atom) (fill : Char) :
    ∀ (fuel : Nat) (s : List Char) (j : Nat),
      (maskLoop re fill fuel s)[j]? = s[j]? ∨ (maskLoop re fill fuel s)[j]? = some fill := by
  intro fuel
  induction fuel with
  | zero => intro s j; left; rfl
  | succ fuel ih =>
    intro s j
    cases hs : searchFrom re s with
    | none => left; simp only [maskLoop, hs]
    | some pn =>
      obtain ⟨p, n⟩ := pn
      have hb := searchFrom_some_le re s p n hs
      have hA : (s.take p).length = p := by simp only [List.length_take]; omega
      have hlen : ((s.take p) ++ List.replicate n fill).length = p + n := by
        simp only [List.length_append, List.length_take, List.length_replicate]; omega
      simp only [maskLoop, hs]
      by_cases hj1 : j < p
      · left
        rw [List.getElem?_append, hlen, if_pos (by omega),
          List.getElem?_append, hA, if_pos (by omega),
          List.getElem?_take, if_pos hj1]
      · by_cases hj2 : j < p + n
        · right
          rw [List.getElem?_append, hlen, if_pos (by omega),
            List.getElem?_append, hA, if_neg (by omega),
            List.getElem?_replicate, if_pos (by omega)]
        · rw [List.getElem?_append, hlen, if_neg (by omega)]
          rcases ih (s.drop (p + n)) (j - (p + n)) with h | h
          · left
            rw [h, List.getElem?_drop]
            congr 1
            omega
          · right
            exact h

theorem maskLoop_no_search (re : List Atom) (fill : Char) (fuel : Nat) (s : List Char)
    (h : searchFrom re s = none) : maskLoop re fill (fuel + 1) s = s := by
  simp only [maskLoop, h]

theorem maskString_no_match (re : List Atom) (fill : Char) (s : String)
    (h : searchFrom re s.data = none) : maskString re fill s = s := by
  show String.mk (maskLoop re fill (s.data.length + 1) s.data) = s
  rw [maskLoop_no_search re fill _ _ h]

/-- C1: for every input, every compiled pattern and every one-character
filler, masking scans for non-overlapping leftmost-first matches (that is
the definition of `searchFrom`/`maskLoop`, translated from the sources'
substitution loops), every output position holds either the input byte at
that position (unmatched spans copied verbatim) or the filler byte
(matched spans replaced byte-for-byte), and the output length equals the
input length — for the raw engine and for both UDF entry points. -/
theorem mask_preserves_length :
    (∀ (re : List Atom) (fill : Char) (s : String),
      (maskString re fill s).length = s.length ∧
      ∀ j : Nat, (maskString re fill s).data[j]? = s.data[j]? ∨
        (maskString re fill s).data[j]? = some fill) ∧
    (∀ (ctx : RegexMaskingUdf.Ctx) (k i m out : String),
      (RegexMaskingUdf.mask ctx (some k) (some i) (some m)).1 = some out →
      out.length = i.length) ∧
    (∀ (st : CachedRegexMaskingUdf.RegexCacheState) (k i out : String),
      (CachedRegexMaskingUdf.mask st (some k) (some i)).1 = some out →
      out.length = i.length) := by
  refine ⟨fun re fill s => ⟨maskString_length re fill s, fun j => maskLoop_getElem re fill _ _ j⟩, ?_, ?_⟩
  · intro ctx k i m out h
    cases hst : ctx.state with
    | none => simp only [RegexMaskingUdf.mask, hst] at h; exact Option.noConfusion h
    | some st =>
      rcases hr : RegexMaskingUdf.resolvePattern st k with ⟨r, st', e⟩
      cases e with
      | some e0 => simp only [RegexMaskingUdf.mask, hst, hr] at h; exact Option.noConfusion h
      | none =>
        cases r with
        | none => simp only [RegexMaskingUdf.mask, hst, hr] at h; exact Option.noConfusion h
        | some pat =>
          cases hm : m.data with
          | nil => simp only [RegexMaskingUdf.mask, hst, hr, hm] at h; exact Option.noConfusion h
          | cons c cs =>
            cases cs with
            | nil =>
              simp only [RegexMaskingUdf.mask, hst, hr, hm, Option.some.injEq] at h
              subst h
              exact maskString_length pat c i
            | cons c2 cs2 => simp only [RegexMaskingUdf.mask, hst, hr, hm] at h; exact Option.noConfusion h
  · intro st k i out h
    rcases hg : CachedRegexMaskingUdf.GetRegex st k with ⟨r, st'⟩
    cases r with
    | none => simp only [CachedRegexMaskingUdf.mask, hg] at h; exact Option.noConfusion h
    | some pat =>
      simp only [CachedRegexMaskingUdf.mask, hg, Option.some.injEq] at h
      subst h
      exact maskString_length pat '*' i

/-- Witness for C1 at a concrete call: the cached UDF's output for the
SSN scenario has the input's length. -/
theorem mask_preserves_length_witness :
    ("my ssn is ************** thanks" : String).length =
      ("my ssn is 123456-1234567 thanks" : String).length :=
  mask_preserves_length.2.2 CachedRegexMaskingUdf.initCache "SSN"
    "my ssn is 123456-1234567 thanks" "my ssn is ************** thanks" (by decide)

/-- C3: a known key whose compiled pattern finds zero matches in the
input returns the input unchanged, for both UDF entry points; in
particular the empty input comes back as the empty string, not null. -/
theorem mask_zero_matches_passthrough :
    (∀ (st st' : CachedRegexMaskingUdf.RegexCacheState) (k i : String) (re : List Atom),
      CachedRegexMaskingUdf.GetRegex st k = (some re, st') →
      searchFrom re i.data = none →
      (CachedRegexMaskingUdf.mask st (some k) (some i)).1 = some i) ∧
    (∀ (ctx : RegexMaskingUdf.Ctx) (st st' : RegexMaskingUdf.MaskState) (k i m : String)
      (re : List Atom) (c : Char),
      ctx.state = some st →
      RegexMaskingUdf.resolvePattern st k = (some re, st', none) →
      m.data = [c] →
      searchFrom re i.data = none →
      (RegexMaskingUdf.mask ctx (some k) (some i) (some m)).1 = some i) := by
  constructor
  · intro st st' k i re hg hn
    simp only [CachedRegexMaskingUdf.mask, hg]
    rw [maskString_no_match re '*' i hn]
  · intro ctx st st' k i m re c hst hr hm hn
    simp only [RegexMaskingUdf.mask, hst, hr, hm]
    rw [maskString_no_match re c i hn]

/-- Witness for C3: key `SSN` with the empty input gives the empty
string (spec scenario 5). -/
theorem mask_zero_matches_passthrough_witness :
    (CachedRegexMaskingUdf.mask CachedRegexMaskingUdf.initCache
      (some "SSN") (some "")).1 = some "" :=
  mask_zero_matches_passthrough.1 CachedRegexMaskingUdf.initCache
    ⟨[("SSN", ssnAtoms)]⟩ "SSN" "" ssnAtoms rfl rfl

/-- C4 counterexample: the claim (and spec scenario 1) expects 15
asterisks, but the matched span `123456-1234567` is 14 bytes long and the
length-preserving code emits exactly 14 asterisks, so the claimed output
string (which has 15) is not produced. -/
theorem scenario1_fifteen_asterisks_refuted :
    (CachedRegexMaskingUdf.mask CachedRegexMaskingUdf.initCache (some "SSN")
      (some "my ssn is 123456-1234567 thanks")).1 ≠
      some "my ssn is *************** thanks" := by decide

/-- C4 amended: the SSN scenario yields 14 asterisks — the exact length
of the matched span `123456-1234567`. -/
theorem scenario1_fourteen_asterisks :
    (CachedRegexMaskingUdf.mask CachedRegexMaskingUdf.initCache (some "SSN")
      (some "my ssn is 123456-1234567 thanks")).1 =
      some "my ssn is ************** thanks" ∧
    ("123456-1234567" : String).length = 14 ∧
    ("**************" : String).length = 14 := by
  exact ⟨by decide, by decide, by decide⟩

/-- C10: determinism.  With identical function state and identical
arguments the result value is identical whatever else differs in the
context (here: the history of emitted diagnostics) — the output is a
function of (state, key, input, mask_char) only. -/
theorem mask_deterministic :
    ∀ (st : Option RegexMaskingUdf.MaskState) (e1 e2 : List String)
      (key input mask_val : Option String),
      (RegexMaskingUdf.mask ⟨st, e1⟩ key input mask_val).1 =
        (RegexMaskingUdf.mask ⟨st, e2⟩ key input mask_val).1 := by
  intro st e1 e2 key input mask_val
  cases key with
  | none => rfl
  | some k =>
    cases input with
    | none => rfl
    | some i =>
      cases mask_val with
      | none => rfl
      | some m =>
        cases st with
        | none => rfl
        | some st =>
          rcases hr : RegexMaskingUdf.resolvePattern st k with ⟨r, st', e⟩
          cases e with
          | some e0 => simp only [RegexMaskingUdf.mask, hr]
          | none =>
            cases r with
            | none => simp only [RegexMaskingUdf.mask, hr]
            | some pat =>
              cases hm : m.data with
              | nil => simp only [RegexMaskingUdf.mask, hr, hm]
              | cons c cs =>
                cases cs with
                | nil => simp only [RegexMaskingUdf.mask, hr, hm]
                | cons c2 cs2 => simp only [RegexMaskingUdf.mask, hr, hm]

/-- The condition under which the three-argument UDF's locked block hits
`std::regex_error`: key absent from the cache, present in the catalog,
and its pattern text failing to compile. -/
def compileFailure (st : RegexMaskingUdf.MaskState) (k : String) : Prop :=
  st.regex_cache.lookup k = none ∧
    ∃ src e, st.patterns.lookup k = some src ∧ compileRegex src = .error e

theorem resolvePattern_error_imp (st : RegexMaskingUdf.MaskState) (k : String)
    (r : Option (List Atom)) (st' : RegexMaskingUdf.MaskState) (e : String)
    (h : RegexMaskingUdf.resolvePattern st k = (r, st', some e)) :
    compileFailure st k := by
  cases hc : st.regex_cache.lookup k with
  | some v =>
    simp only [RegexMaskingUdf.resolvePattern, hc, Prod.mk.injEq] at h
    exact absurd h.2.2 (by simp)
  | none =>
    cases hp : st.patterns.lookup k with
    | none =>
      simp only [RegexMaskingUdf.resolvePattern, hc, hp, Prod.mk.injEq] at h
      exact absurd h.2.2 (by simp)
    | some src =>
      cases hcc : compileRegex src with
      | ok c =>
        simp only [RegexMaskingUdf.resolvePattern, hc, hp, hcc, Prod.mk.injEq] at h
        exact absurd h.2.2 (by simp)
      | error e0 =>
        exact ⟨hc, src, e0, hp, hcc⟩

theorem compileFailure_resolvePattern (st : RegexMaskingUdf.MaskState) (k : String)
    (hf : compileFailure st k) :
    ∃ e, RegexMaskingUdf.resolvePattern st k = (none, st, some e) := by
  obtain ⟨hc, src, e, hp, hcc⟩ := hf
  exact ⟨e, by simp only [RegexMaskingUdf.resolvePattern, hc, hp, hcc]⟩

theorem catalog_compiles : ∀ (k src : String),
    List.lookup k [("APN", apnSrc), ("EMAIL", emailSrc), ("SSN", ssnSrc)] = some src →
    ∃ c, compileRegex src = .ok c := by
  intro k src h
  simp only [List.lookup] at h
  split at h
  · obtain rfl : apnSrc = src := by simpa using h
    exact ⟨apnAtoms, rfl⟩
  · split at h
    · obtain rfl : emailSrc = src := by simpa using h
      exact ⟨emailAtoms, rfl⟩
    · split at h
      · obtain rfl : ssnSrc = src := by simpa using h
        exact ⟨ssnAtoms, rfl⟩
      · exact Option.noConfusion h

theorem append_singleton_ne (l : List String) (x : String) : l ++ [x] ≠ l := by
  intro h
  have := congrArg List.length h
  simp only [List.length_append, List.length_cons, List.length_nil] at this
  omega

/-- C2 counterexample: a call with a null key that arrives while the
scope state is uninitialized returns null but emits no diagnostic — the
null-argument check runs before the state check, so not every call
arriving on an uninitialized scope emits one. -/
theorem uninitialized_silent_on_null_arg :
    (RegexMaskingUdf.mask ⟨none, []⟩ none (some "abc") (some "*")).1 = none ∧
    (RegexMaskingUdf.mask ⟨none, []⟩ none (some "abc") (some "*")).2.errors = [] :=
  ⟨rfl, rfl⟩

/-- C2 amended: restricted to calls whose three arguments are all
non-null, a diagnostic is emitted exactly when the scope state is
uninitialized or the key's pattern fails to compile, every
diagnostic-emitting call returns null, and with the fixed catalogs a
compilation failure never occurs (every catalog pattern compiles) — in
particular the cached variant, which has no error channel, never needs
one. -/
theorem error_channel_only_two_outcomes :
    (∀ (ctx : RegexMaskingUdf.Ctx) (key input mask_val : Option String),
      ((RegexMaskingUdf.mask ctx key input mask_val).2.errors ≠ ctx.errors ↔
        (∃ k i m, key = some k ∧ input = some i ∧ mask_val = some m ∧
          (ctx.state = none ∨ ∃ st, ctx.state = some st ∧ compileFailure st k))) ∧
      ((RegexMaskingUdf.mask ctx key input mask_val).2.errors ≠ ctx.errors →
        (RegexMaskingUdf.mask ctx key input mask_val).1 = none)) ∧
    (∀ k src, CachedRegexMaskingUdf.regex_patterns.lookup k = some src →
      ∃ c, compileRegex src = .ok c) ∧
    (∀ k src, RegexMaskingUdf.initMaskState.patterns.lookup k = some src →
      ∃ c, compileRegex src = .ok c) := by
  refine ⟨?_, catalog_compiles, catalog_compiles⟩
  intro ctx key input mask_val
  cases key with
  | none =>
    refine ⟨⟨fun hne => absurd rfl hne, ?_⟩, fun hne => absurd rfl hne⟩
    rintro ⟨k, i, m, hk, -, -, -⟩
    exact Option.noConfusion hk
  | some k =>
    cases input with
    | none =>
      refine ⟨⟨fun hne => absurd rfl hne, ?_⟩, fun hne => absurd rfl hne⟩
      rintro ⟨k', i, m, -, hi, -, -⟩
      exact Option.noConfusion hi
    | some i =>
      cases mask_val with
      | none =>
        refine ⟨⟨fun hne => absurd rfl hne, ?_⟩, fun hne => absurd rfl hne⟩
        rintro ⟨k', i', m, -, -, hm, -⟩
        exact Option.noConfusion hm
      | some m =>
        cases hst : ctx.state with
        | none =>
          refine ⟨⟨fun _ => ⟨k, i, m, rfl, rfl, rfl, Or.inl rfl⟩, fun _ => ?_⟩, fun _ => ?_⟩
          · simp only [RegexMaskingUdf.mask, hst]
            exact append_singleton_ne ctx.errors _
          · simp only [RegexMaskingUdf.mask, hst]
        | some st =>
          rcases hr : RegexMaskingUdf.resolvePattern st k with ⟨r, st', e⟩
          cases e with
          | some e0 =>
            refine ⟨⟨fun _ => ?_, fun _ => ?_⟩, fun _ => ?_⟩
            · exact ⟨k, i, m, rfl, rfl, rfl,
                Or.inr ⟨st, rfl, resolvePattern_error_imp st k r st' e0 hr⟩⟩
            · simp only [RegexMaskingUdf.mask, hst, hr]
              exact append_singleton_ne ctx.errors _
            · simp only [RegexMaskingUdf.mask, hst, hr]
          | none =>
            have hnofail : ¬ compileFailure st k := by
              intro hf
              obtain ⟨e1, he1⟩ := compileFailure_resolvePattern st k hf
              rw [hr] at he1
              have := congrArg (fun t => t.2.2) he1
              exact Option.noConfusion this
            have hrhs : ¬ (∃ k' i' m', (some k : Option String) = some k' ∧
                (some i : Option String) = some i' ∧ (some m : Option String) = some m' ∧
                ((some st : Option RegexMaskingUdf.MaskState) = none ∨
                  ∃ st0, (some st : Option RegexMaskingUdf.MaskState) = some st0 ∧
                    compileFailure st0 k')) := by
              rintro ⟨k', i', m', hk, -, -, hcase⟩
              obtain rfl : k = k' := Option.some_injective _ hk
              rcases hcase with hnone | ⟨st0, hst0, hf⟩
              · exact Option.noConfusion hnone
              · obtain rfl : st = st0 := Option.some_injective _ hst0
                exact hnofail hf
            have herr : (RegexMaskingUdf.mask ctx (some k) (some i) (some m)).2.errors =
                ctx.errors := by
              cases r with
              | none => simp only [RegexMaskingUdf.mask, hst, hr]
              | some pat =>
                cases hm : m.data with
                | nil => simp only [RegexMaskingUdf.mask, hst, hr, hm]
                | cons c cs =>
                  cases cs with
                  | nil => simp only [RegexMaskingUdf.mask, hst, hr, hm]
                  | cons c2 cs2 => simp only [RegexMaskingUdf.mask, hst, hr, hm]
            exact ⟨⟨fun hne => absurd herr hne, fun hypo => absurd hypo hrhs⟩,
              fun hne => absurd herr hne⟩

/-- C5 counterexample: a call whose key `UNKNOWN` is not in the pattern
catalog, made while the scope state is uninitialized, returns null but
does emit a diagnostic — the state check runs before the key lookup, so
"no diagnostic" does not hold for every unknown-key call. -/
theorem unknown_key_not_always_silent :
    (RegexMaskingUdf.mask ⟨none, []⟩ (some "UNKNOWN") (some "abc") (some "*")).1 = none ∧
    (RegexMaskingUdf.mask ⟨none, []⟩ (some "UNKNOWN") (some "abc") (some "*")).2.errors =
      ["Masking UDF state not prepared."] :=
  ⟨rfl, rfl⟩

/-- C5 amended: null-argument calls return null with no diagnostic and no
state change unconditionally; on a prepared scope an unknown key returns
null with no diagnostic, and so does a mask string whose length is not
one when the scope carries the default catalog (whose patterns all
compile); on an unprepared scope the uninitialized-state diagnostic takes
precedence instead.  The cached variant returns null for null arguments
and unknown keys and has no error channel at all. -/
theorem silent_expected_outcomes :
    (∀ (ctx : RegexMaskingUdf.Ctx) (key input mask_val : Option String),
      key = none ∨ input = none ∨ mask_val = none →
      RegexMaskingUdf.mask ctx key input mask_val = (none, ctx)) ∧
    (∀ (ctx : RegexMaskingUdf.Ctx) (st : RegexMaskingUdf.MaskState) (k i m : String),
      ctx.state = some st →
      st.regex_cache.lookup k = none → st.patterns.lookup k = none →
      (RegexMaskingUdf.mask ctx (some k) (some i) (some m)).1 = none ∧
      (RegexMaskingUdf.mask ctx (some k) (some i) (some m)).2.errors = ctx.errors) ∧
    (∀ (ctx : RegexMaskingUdf.Ctx) (st : RegexMaskingUdf.MaskState) (k i m : String),
      ctx.state = some st →
      st.patterns = RegexMaskingUdf.initMaskState.patterns →
      m.data.length ≠ 1 →
      (RegexMaskingUdf.mask ctx (some k) (some i) (some m)).1 = none ∧
      (RegexMaskingUdf.mask ctx (some k) (some i) (some m)).2.errors = ctx.errors) ∧
    (∀ (st : CachedRegexMaskingUdf.RegexCacheState) (key input : Option String),
      key = none ∨ input = none →
      CachedRegexMaskingUdf.mask st key input = (none, st)) ∧
    (∀ (st : CachedRegexMaskingUdf.RegexCacheState) (k i : String),
      st.regex_map.lookup k = none →
      CachedRegexMaskingUdf.regex_patterns.lookup k = none →
      (CachedRegexMaskingUdf.mask st (some k) (some i)).1 = none) := by
  refine ⟨?_, ?_, ?_, ?_, ?_⟩
  · rintro ctx key input mask_val (rfl | rfl | rfl)
    · rfl
    · cases key <;> rfl
    · cases key <;> [skip; cases input] <;> rfl
  · intro ctx st k i m hst hc hp
    have hr : RegexMaskingUdf.resolvePattern st k = (none, st, none) := by
      simp only [RegexMaskingUdf.resolvePattern, hc, hp]
    exact ⟨by simp only [RegexMaskingUdf.mask, hst, hr],
      by simp only [RegexMaskingUdf.mask, hst, hr]⟩
  · intro ctx st k i m hst hcat hlen
    rcases hr : RegexMaskingUdf.resolvePattern st k with ⟨r, st', e⟩
    cases e with
    | some e0 =>
      obtain ⟨hc, src, e1, hp, hcc⟩ := resolvePattern_error_imp st k r st' e0 hr
      rw [hcat] at hp
      obtain ⟨c, hok⟩ := catalog_compiles k src hp
      rw [hok] at hcc
      exact absurd hcc (by simp)
    | none =>
      cases r with
      | none =>
        exact ⟨by simp only [RegexMaskingUdf.mask, hst, hr],
          by simp only [RegexMaskingUdf.mask, hst, hr]⟩
      | some pat =>
        cases hm : m.data with
        | nil =>
          exact ⟨by simp only [RegexMaskingUdf.mask, hst, hr, hm],
            by simp only [RegexMaskingUdf.mask, hst, hr, hm]⟩
        | cons c cs =>
          cases cs with
          | nil =>
            exact absurd (by rw [hm]; rfl) hlen
          | cons c2 cs2 =>
            exact ⟨by simp only [RegexMaskingUdf.mask, hst, hr, hm],
              by simp only [RegexMaskingUdf.mask, hst, hr, hm]⟩
  · rintro st key input (rfl | rfl)
    · rfl
    · cases key <;> rfl
  · intro st k i hc hp
    have hg : CachedRegexMaskingUdf.GetRegex st k = (none, st) := by
      simp only [CachedRegexMaskingUdf.GetRegex, hc, hp]
    simp only [CachedRegexMaskingUdf.mask, hg]

/-- Witness for C5 at a concrete call: an unknown key on a freshly
prepared scope is null and silent. -/
theorem silent_expected_outcomes_witness :
    (RegexMaskingUdf.mask RegexMaskingUdf.initCtx (some "UNKNOWN") (some "abc")
      (some "*")).1 = none ∧
    (RegexMaskingUdf.mask RegexMaskingUdf.initCtx (some "UNKNOWN") (some "abc")
      (some "*")).2.errors = [] :=
  silent_expected_outcomes.2.1 RegexMaskingUdf.initCtx RegexMaskingUdf.initMaskState
    "UNKNOWN" "abc" "*" rfl rfl rfl

/-- C6 counterexample: a call in replace-with-character mode with an
empty mask string (length 0, not 1) against a freshly prepared scope
returns null, but the pattern cache does not stay unchanged: the key
`SSN` gets looked up, compiled and inserted before the mask-length check
runs (cache keys go from none to `["SSN"]`). -/
theorem mask_length_not_checked_first :
    (RegexMaskingUdf.mask RegexMaskingUdf.initCtx (some "SSN") (some "x")
      (some "")).1 = none ∧
    ((RegexMaskingUdf.mask RegexMaskingUdf.initCtx (some "SSN") (some "x")
      (some "")).2.state.map (fun st => st.regex_cache.map Prod.fst)) = some ["SSN"] ∧
    (RegexMaskingUdf.initCtx.state.map (fun st => st.regex_cache.map Prod.fst)) =
      some ([] : List String) ∧
    (RegexMaskingUdf.mask RegexMaskingUdf.initCtx (some "SSN") (some "x")
      (some "")).2.errors = [] :=
  ⟨rfl, rfl, rfl, rfl⟩

/-- C6 amended: the mask-length validation runs after pattern resolution,
not before it — on a prepared scope, when the key resolves to a compiled
pattern and the mask string's length differs from one, the call returns
null with no diagnostic and no scanning output, but its final state is
the resolution's (possibly cache-extended) state. -/
theorem mask_length_checked_after_resolution :
    ∀ (ctx : RegexMaskingUdf.Ctx) (st st' : RegexMaskingUdf.MaskState) (k i m : String)
      (pat : List Atom),
      ctx.state = some st →
      RegexMaskingUdf.resolvePattern st k = (some pat, st', none) →
      m.data.length ≠ 1 →
      RegexMaskingUdf.mask ctx (some k) (some i) (some m) =
        (none, ⟨some st', ctx.errors⟩) := by
  intro ctx st st' k i m pat hst hr hlen
  cases hm : m.data with
  | nil => simp only [RegexMaskingUdf.mask, hst, hr, hm]
  | cons c cs =>
    cases cs with
    | nil => exact absurd (by rw [hm]; rfl) hlen
    | cons c2 cs2 => simp only [RegexMaskingUdf.mask, hst, hr, hm]

/-- Witness for C6 at the concrete counterexample call. -/
theorem mask_length_checked_after_resolution_witness :
    RegexMaskingUdf.mask RegexMaskingUdf.initCtx (some "SSN") (some "x") (some "") =
      (none, ⟨some ⟨RegexMaskingUdf.initMaskState.patterns, [("SSN", ssnAtoms)]⟩, []⟩) :=
  mask_length_checked_after_resolution RegexMaskingUdf.initCtx
    RegexMaskingUdf.initMaskState ⟨RegexMaskingUdf.initMaskState.patterns, [("SSN", ssnAtoms)]⟩
    "SSN" "x" "" ssnAtoms rfl rfl (by decide)

theorem lookup_cons_of_absent {β : Type} (l : List (String × β)) (k k2 : String)
    (c : β) (v : β) (hk : l.lookup k = none) (h : l.lookup k2 = some v) :
    ((k, c) :: l).lookup k2 = some v := by
  have hne : (k2 == k) = false := by
    refine beq_eq_false_iff_ne.mpr ?_
    intro he
    subst he
    rw [hk] at h
    exact Option.noConfusion h
  simp only [List.lookup, hne]
  exact h

theorem resolvePattern_state_spec (st : RegexMaskingUdf.MaskState) (k : String) :
    ((RegexMaskingUdf.resolvePattern st k).2.1).patterns = st.patterns ∧
    (∀ k2 v, st.regex_cache.lookup k2 = some v →
      ((RegexMaskingUdf.resolvePattern st k).2.1).regex_cache.lookup k2 = some v) ∧
    (((RegexMaskingUdf.resolvePattern st k).2.1).regex_cache = st.regex_cache ∨
      (st.regex_cache.lookup k = none ∧ ∃ src c,
        st.patterns.lookup k = some src ∧ compileRegex src = .ok c ∧
        ((RegexMaskingUdf.resolvePattern st k).2.1).regex_cache =
          (k, c) :: st.regex_cache)) := by
  cases hc : st.regex_cache.lookup k with
  | some v0 =>
    have hr : RegexMaskingUdf.resolvePattern st k = (some v0, st, none) := by
      simp only [RegexMaskingUdf.resolvePattern, hc]
    rw [hr]
    exact ⟨rfl, fun k2 v h => h, Or.inl rfl⟩
  | none =>
    cases hp : st.patterns.lookup k with
    | none =>
      have hr : RegexMaskingUdf.resolvePattern st k = (none, st, none) := by
        simp only [RegexMaskingUdf.resolvePattern, hc, hp]
      rw [hr]
      exact ⟨rfl, fun k2 v h => h, Or.inl rfl⟩
    | some src =>
      cases hcc : compileRegex src with
      | ok c =>
        have hr : RegexMaskingUdf.resolvePattern st k =
            (some c, ⟨st.patterns, (k, c) :: st.regex_cache⟩, none) := by
          simp only [RegexMaskingUdf.resolvePattern, hc, hp, hcc]
        rw [hr]
        exact ⟨rfl, fun k2 v h => lookup_cons_of_absent st.regex_cache k k2 c v hc h,
          Or.inr ⟨rfl, src, c, rfl, hcc, rfl⟩⟩
      | error e =>
        have hr : RegexMaskingUdf.resolvePattern st k = (none, st, some e) := by
          simp only [RegexMaskingUdf.resolvePattern, hc, hp, hcc]
        rw [hr]
        exact ⟨rfl, fun k2 v h => h, Or.inl rfl⟩

theorem mask_state_of_resolve (ctx : RegexMaskingUdf.Ctx)
    (st st' : RegexMaskingUdf.MaskState) (k i m : String) (r : Option (List Atom))
    (e : Option String) (hst : ctx.state = some st)
    (hr : RegexMaskingUdf.resolvePattern st k = (r, st', e)) :
    ((RegexMaskingUdf.mask ctx (some k) (some i) (some m)).2).state = some st' := by
  cases e with
  | some e0 => simp only [RegexMaskingUdf.mask, hst, hr]
  | none =>
    cases r with
    | none => simp only [RegexMaskingUdf.mask, hst, hr]
    | some pat =>
      cases hm : m.data with
      | nil => simp only [RegexMaskingUdf.mask, hst, hr, hm]
      | cons c cs =>
        cases cs with
        | nil => simp only [RegexMaskingUdf.mask, hst, hr, hm]
        | cons c2 cs2 => simp only [RegexMaskingUdf.mask, hst, hr, hm]

/-- C7: the only mutation any call performs on a pattern cache is
inserting a successfully compiled pattern for a previously absent key; a
compilation failure inserts nothing (so the same key is retried on a
later call), and no existing key's compiled pattern is ever removed or
replaced — for the cached variant's `GetRegex` and for the
three-argument UDF's locked block (whose catalog also never changes). -/
theorem cache_mutation_spec :
    (∀ (st : CachedRegexMaskingUdf.RegexCacheState) (k : String),
      (∀ k2 v, st.regex_map.lookup k2 = some v →
        ((CachedRegexMaskingUdf.GetRegex st k).2).regex_map.lookup k2 = some v) ∧
      ((CachedRegexMaskingUdf.GetRegex st k).2 = st ∨
        (st.regex_map.lookup k = none ∧ ∃ src c,
          CachedRegexMaskingUdf.regex_patterns.lookup k = some src ∧
          compileRegex src = .ok c ∧
          ((CachedRegexMaskingUdf.GetRegex st k).2).regex_map =
            (k, c) :: st.regex_map)) ∧
      (∀ src e, st.regex_map.lookup k = none →
        CachedRegexMaskingUdf.regex_patterns.lookup k = some src →
        compileRegex src = .error e →
        CachedRegexMaskingUdf.GetRegex st k = (none, st))) ∧
    (∀ (ctx : RegexMaskingUdf.Ctx) (st : RegexMaskingUdf.MaskState) (k i m : String),
      ctx.state = some st →
      ∃ st2, ((RegexMaskingUdf.mask ctx (some k) (some i) (some m)).2).state = some st2 ∧
        st2.patterns = st.patterns ∧
        (∀ k2 v, st.regex_cache.lookup k2 = some v →
          st2.regex_cache.lookup k2 = some v) ∧
        (st2.regex_cache = st.regex_cache ∨
          (st.regex_cache.lookup k = none ∧ ∃ src c,
            st.patterns.lookup k = some src ∧ compileRegex src = .ok c ∧
            st2.regex_cache = (k, c) :: st.regex_cache))) := by
  constructor
  · intro st k
    cases hc : st.regex_map.lookup k with
    | some v0 =>
      have hg : CachedRegexMaskingUdf.GetRegex st k = (some v0, st) := by
        simp only [CachedRegexMaskingUdf.GetRegex, hc]
      refine ⟨fun k2 v h => by rw [hg]; exact h, Or.inl (by rw [hg]), ?_⟩
      intro src e hnone _ _
      exact Option.noConfusion hnone
    | none =>
      cases hp : CachedRegexMaskingUdf.regex_patterns.lookup k with
      | none =>
        have hg : CachedRegexMaskingUdf.GetRegex st k = (none, st) := by
          simp only [CachedRegexMaskingUdf.GetRegex, hc, hp]
        refine ⟨fun k2 v h => by rw [hg]; exact h, Or.inl (by rw [hg]), ?_⟩
        intro src e _ hp2 _
        exact Option.noConfusion hp2
      | some src =>
        cases hcc : compileRegex src with
        | ok c =>
          have hg : CachedRegexMaskingUdf.GetRegex st k =
              (some c, ⟨(k, c) :: st.regex_map⟩) := by
            simp only [CachedRegexMaskingUdf.GetRegex, hc, hp, hcc]
          refine ⟨fun k2 v h => by
              rw [hg]
              exact lookup_cons_of_absent st.regex_map k k2 c v hc h,
            Or.inr ⟨rfl, src, c, rfl, hcc, by rw [hg]⟩, ?_⟩
          intro src' e _ hp2 hcc2
          obtain rfl : src = src' := Option.some_injective _ hp2
          rw [hcc] at hcc2
          exact Except.noConfusion hcc2
        | error e0 =>
          have hg : CachedRegexMaskingUdf.GetRegex st k = (none, st) := by
            simp only [CachedRegexMaskingUdf.GetRegex, hc, hp, hcc]
          exact ⟨fun k2 v h => by rw [hg]; exact h, Or.inl (by rw [hg]),
            fun src' e' _ _ _ => hg⟩
  · intro ctx st k i m hst
    rcases hr : RegexMaskingUdf.resolvePattern st k with ⟨r, st'', e⟩
    have hspec := resolvePattern_state_spec st k
    rw [hr] at hspec
    exact ⟨st'', mask_state_of_resolve ctx st st'' k i m r e hst hr,
      hspec.1, hspec.2.1, hspec.2.2⟩

/-- Witness for C7 at a concrete call: the first SSN call on a prepared
scope ends with a state that still has the default catalog. -/
theorem cache_mutation_spec_witness :
    ∃ st2, ((RegexMaskingUdf.mask RegexMaskingUdf.initCtx (some "SSN") (some "x")
        (some "*")).2).state = some st2 ∧
      st2.patterns = RegexMaskingUdf.initMaskState.patterns ∧
      (∀ k2 v, RegexMaskingUdf.initMaskState.regex_cache.lookup k2 = some v →
        st2.regex_cache.lookup k2 = some v) ∧
      (st2.regex_cache = RegexMaskingUdf.initMaskState.regex_cache ∨
        (RegexMaskingUdf.initMaskState.regex_cache.lookup "SSN" = none ∧ ∃ src c,
          RegexMaskingUdf.initMaskState.patterns.lookup "SSN" = some src ∧
          compileRegex src = .ok c ∧
          st2.regex_cache = ("SSN", c) :: RegexMaskingUdf.initMaskState.regex_cache)) :=
  cache_mutation_spec.2 RegexMaskingUdf.initCtx RegexMaskingUdf.initMaskState
    "SSN" "x" "*" rfl

theorem lookup_self {β : Type} (l : List (String × β)) (k : String) (c : β) :
    ((k, c) :: l).lookup k = some c := by
  simp [List.lookup]

theorem countP_zero_of_lookup_none {β : Type} (l : List (String × β)) (k : String)
    (h : l.lookup k = none) : l.countP (fun p => p.1 == k) = 0 := by
  induction l with
  | nil => rfl
  | cons a l ih =>
    obtain ⟨a1, a2⟩ := a
    cases hb : (k == a1) with
    | true =>
      simp only [List.lookup, hb] at h
      exact Option.noConfusion h
    | false =>
      simp only [List.lookup, hb] at h
      rw [List.countP_cons]
      have hb2 : (a1 == k) = false := by
        refine beq_eq_false_iff_ne.mpr ?_
        intro he
        subst he
        rw [beq_self_eq_true] at hb
        exact Bool.noConfusion hb
      simp only [hb2, ih h]
      simp

theorem mask_cached_hit (st : CachedRegexMaskingUdf.RegexCacheState) (k i : String)
    (c : List Atom) (h : st.regex_map.lookup k = some c) :
    CachedRegexMaskingUdf.mask st (some k) (some i) =
      (some (maskString c '*' i), st) := by
  have hg : CachedRegexMaskingUdf.GetRegex st k = (some c, st) := by
    simp only [CachedRegexMaskingUdf.GetRegex, h]
  simp only [CachedRegexMaskingUdf.mask, hg]

theorem runThreads_all_hit (k i : String) (c : List Atom) :
    ∀ (n : Nat) (st : CachedRegexMaskingUdf.RegexCacheState),
      st.regex_map.lookup k = some c →
      runThreads n st k i = (List.replicate n (some (maskString c '*' i)), st) := by
  intro n
  induction n with
  | zero => intro st h; rfl
  | succ n ih =>
    intro st h
    simp only [runThreads, mask_cached_hit st k i c h, ih st h, List.replicate_succ]

/-- C9: with the mutex serialising the lookup-or-compile-and-insert
critical sections, any interleaving of N threads calling the cached UDF
with the same previously uncompiled key is one of the sequential orders
modelled by `runThreads`; every thread receives the correct masked
output, and the final cache holds exactly one compiled matcher for that
key (the first call compiles and inserts, every later call hits). -/
theorem concurrent_single_compile :
    ∀ (n : Nat) (st : CachedRegexMaskingUdf.RegexCacheState) (k i src : String)
      (c : List Atom),
      st.regex_map.lookup k = none →
      CachedRegexMaskingUdf.regex_patterns.lookup k = some src →
      compileRegex src = .ok c →
      (runThreads (n + 1) st k i).1 =
        List.replicate (n + 1) (some (maskString c '*' i)) ∧
      ((runThreads (n + 1) st k i).2.regex_map.countP (fun p => p.1 == k)) = 1 := by
  intro n st k i src c hc hp hcc
  have hg : CachedRegexMaskingUdf.GetRegex st k =
      (some c, ⟨(k, c) :: st.regex_map⟩) := by
    simp only [CachedRegexMaskingUdf.GetRegex, hc, hp, hcc]
  have hm1 : CachedRegexMaskingUdf.mask st (some k) (some i) =
      (some (maskString c '*' i), ⟨(k, c) :: st.regex_map⟩) := by
    simp only [CachedRegexMaskingUdf.mask, hg]
  have hrest := runThreads_all_hit k i c n ⟨(k, c) :: st.regex_map⟩
    (lookup_self st.regex_map k c)
  constructor
  · simp only [runThreads, hm1, hrest, List.replicate_succ]
  · simp only [runThreads, hm1, hrest]
    show List.countP (fun p => p.1 == k) ((k, c) :: st.regex_map) = 1
    rw [List.countP_cons]
    simp only [beq_self_eq_true, if_true, countP_zero_of_lookup_none st.regex_map k hc]

/-- Witness for C9 at a concrete run: three threads, key `SSN`, a fresh
cache. -/
theorem concurrent_single_compile_witness :
    (runThreads 3 CachedRegexMaskingUdf.initCache "SSN" "a 123456-1234567 b").1 =
      List.replicate 3 (some (maskString ssnAtoms '*' "a 123456-1234567 b")) ∧
    ((runThreads 3 CachedRegexMaskingUdf.initCache "SSN"
      "a 123456-1234567 b").2.regex_map.countP (fun p => p.1 == "SSN")) = 1 :=
  concurrent_single_compile 2 CachedRegexMaskingUdf.initCache "SSN"
    "a 123456-1234567 b" ssnSrc ssnAtoms rfl rfl rfl

/-- Declarative meaning of a full match of an atom sequence on `u`: `u`
splits into one consumed segment per atom, each within its atom's
repetition bounds and character class. -/
inductive AtomsMatch : List Atom → List Char → Prop
  | nil : AtomsMatch [] []
  | cons (a : Atom) (rest : List Atom) (u v : List Char)
      (hcls : ∀ c ∈ u, a.cls c = true)
      (hmin : a.min ≤ u.length)
      (hmax : ∀ mx, a.max = some mx → u.length ≤ mx)
      (hrest : AtomsMatch rest v) : AtomsMatch (a :: rest) (u ++ v)

theorem takeCount_sat (p : Char → Bool) :
    ∀ (s : List Char) (k : Nat), k ≤ takeCount p s → ∀ c ∈ s.take k, p c = true := by
  intro s
  induction s with
  | nil => intro k _ c hc; simp at hc
  | cons c0 cs ih =>
    intro k hk c hc
    cases k with
    | zero => simp at hc
    | succ k =>
      simp only [takeCount] at hk
      split at hk
      · rw [List.take_succ_cons] at hc
        rcases List.mem_cons.mp hc with rfl | hc2
        · assumption
        · exact ih k (by omega) c hc2
      · omega
  
theorem takeCount_ge_of_sat (p : Char → Bool) :
    ∀ (u t : List Char), (∀ c ∈ u, p c = true) → u.length ≤ takeCount p (u ++ t) := by
  intro u
  induction u with
  | nil => intro t _; simp
  | cons c0 u0 ih =>
    intro t hsat
    have hc0 : p c0 = true := hsat c0 (by simp)
    have hstep : takeCount p ((c0 :: u0) ++ t) = takeCount p (u0 ++ t) + 1 := by
      simp only [List.cons_append, takeCount, hc0, if_true]
      rfl
    rw [hstep, List.length_cons]
    have := ih t (fun c hc => hsat c (by simp [hc]))
    omega

theorem tryAtom_some_spec (mn : Nat) (f : List Char → Option Nat) (s : List Char) :
    ∀ k n, mn ≤ k → tryAtom mn f s k = some n →
      ∃ j m, mn ≤ j ∧ j ≤ k ∧ f (s.drop j) = some m ∧ n = j + m := by
  intro k
  induction k with
  | zero =>
    intro n hmn h
    simp only [tryAtom] at h
    exact ⟨0, n, hmn, Nat.le_refl 0, by rw [List.drop_zero]; exact h, by omega⟩
  | succ k ih =>
    intro n hmn h
    cases hfs : f (s.drop (k + 1)) with
    | some m =>
      simp only [tryAtom, hfs, Option.some.injEq] at h
      exact ⟨k + 1, m, hmn, Nat.le_refl _, hfs, h.symm⟩
    | none =>
      simp only [tryAtom, hfs] at h
      split at h
      · exact Option.noConfusion h
      · obtain ⟨j, m, h1, h2, h3, h4⟩ := ih n (by omega) h
        exact ⟨j, m, h1, by omega, h3, h4⟩

theorem tryAtom_complete (mn : Nat) (f : List Char → Option Nat) (s : List Char) :
    ∀ k j, mn ≤ j → j ≤ k → (∃ m, f (s.drop j) = some m) →
      ∃ n, tryAtom mn f s k = some n := by
  intro k
  induction k with
  | zero =>
    intro j hmn hj hex
    obtain rfl : j = 0 := by omega
    obtain ⟨m, hm⟩ := hex
    rw [List.drop_zero] at hm
    exact ⟨m, by simp only [tryAtom]; exact hm⟩
  | succ k ih =>
    intro j hmn hj hex
    cases hfs : f (s.drop (k + 1)) with
    | some m => exact ⟨k + 1 + m, by simp only [tryAtom, hfs]⟩
    | none =>
      have hjk : j ≤ k := by
        rcases Nat.lt_or_ge j (k + 1) with h1 | h1
        · omega
        · obtain rfl : j = k + 1 := by omega
          obtain ⟨m, hm⟩ := hex
          rw [hfs] at hm
          exact Option.noConfusion hm
      have hnot : ¬ (k + 1 ≤ mn) := by omega
      obtain ⟨n, hn⟩ := ih j hmn hjk hex
      exact ⟨n, by simp only [tryAtom, hfs, if_neg hnot]; exact hn⟩

theorem matchAtoms_cons_sound_aux (a : Atom) (rest : List Atom) (s : List Char)
    (ih : ∀ (s2 : List Char) (n2 : Nat), matchAtoms rest s2 = some n2 →
      AtomsMatch rest (s2.take n2))
    (M n : Nat) (hM2 : M ≤ takeCount a.cls s) (hM3 : ∀ mx, a.max = some mx → M ≤ mx)
    (hmin : a.min ≤ M)
    (h : tryAtom a.min (fun t => matchAtoms rest t) s M = some n) :
    AtomsMatch (a :: rest) (s.take n) := by
  obtain ⟨j, m, hj1, hj2, hf, rfl⟩ := tryAtom_some_spec a.min _ s M n hmin h
  have hjlen : j ≤ s.length := le_trans (le_trans hj2 hM2) (takeCount_le _ _)
  have hulen : (s.take j).length = j := by
    simp only [List.length_take]
    omega
  rw [List.take_add]
  exact AtomsMatch.cons a rest (s.take j) ((s.drop j).take m)
    (takeCount_sat a.cls s j (le_trans hj2 hM2))
    (by rw [hulen]; exact hj1)
    (fun mx hmx => by rw [hulen]; exact le_trans hj2 (hM3 mx hmx))
    (ih (s.drop j) m hf)

theorem matchAtoms_sound : ∀ (re : List Atom) (s : List Char) (n : Nat),
    matchAtoms re s = some n → AtomsMatch re (s.take n) := by
  intro re
  induction re with
  | nil =>
    intro s n h
    simp only [matchAtoms, Option.some.injEq] at h
    rw [← h, List.take_zero]
    exact AtomsMatch.nil
  | cons a rest ih =>
    intro s n h
    cases hmx : a.max with
    | none =>
      simp only [matchAtoms, hmx] at h
      split at h
      · exact Option.noConfusion h
      · exact matchAtoms_cons_sound_aux a rest s ih (takeCount a.cls s) n
          (Nat.le_refl _) (fun mx hmx2 => by rw [hmx] at hmx2; exact Option.noConfusion hmx2)
          (by omega) h
    | some mx =>
      simp only [matchAtoms, hmx] at h
      split at h
      · exact Option.noConfusion h
      · refine matchAtoms_cons_sound_aux a rest s ih (min mx (takeCount a.cls s)) n
          (Nat.min_le_right _ _) ?_ (by omega) h
        intro mx2 hmx2
        rw [hmx] at hmx2
        obtain rfl : mx = mx2 := Option.some_injective _ hmx2
        exact Nat.min_le_left _ _

theorem matchAtoms_complete : ∀ (re : List Atom) (u : List Char),
    AtomsMatch re u → ∀ (t : List Char), ∃ n, matchAtoms re (u ++ t) = some n := by
  intro re u hm
  induction hm with
  | nil => intro t; exact ⟨0, rfl⟩
  | cons a rest u v hcls hmin hmax hrest ih =>
    intro t
    rw [List.append_assoc]
    have havail : u.length ≤ takeCount a.cls (u ++ (v ++ t)) :=
      takeCount_ge_of_sat a.cls u (v ++ t) hcls
    have hrec : ∃ m, matchAtoms rest ((u ++ (v ++ t)).drop u.length) = some m := by
      rw [List.drop_append_of_le_length (Nat.le_refl _), List.drop_length,
        List.nil_append]
      exact ih t
    cases hmx : a.max with
    | none =>
      simp only [matchAtoms, hmx]
      have hcond : ¬ (takeCount a.cls (u ++ (v ++ t)) < a.min) := by omega
      rw [if_neg hcond]
      exact tryAtom_complete a.min _ (u ++ (v ++ t)) _ u.length hmin havail hrec
    | some mx =>
      simp only [matchAtoms, hmx]
      have hMu : u.length ≤ min mx (takeCount a.cls (u ++ (v ++ t))) :=
        Nat.le_min.mpr ⟨hmax mx hmx, havail⟩
      have hcond : ¬ (min mx (takeCount a.cls (u ++ (v ++ t))) < a.min) := by omega
      rw [if_neg hcond]
      exact tryAtom_complete a.min _ (u ++ (v ++ t)) _ u.length hmin hMu hrec

theorem atomsMatch_no_fill : ∀ {re : List Atom} {u : List Char}, AtomsMatch re u →
    ∀ fill : Char, (∀ a ∈ re, a.cls fill = false) → fill ∉ u := by
  intro re u hm
  induction hm with
  | nil => intro fill _ hmem; simp at hmem
  | cons a rest u v hcls hmin hmax hrest ih =>
    intro fill hfill hmem
    rcases List.mem_append.mp hmem with hin | hin
    · have h1 := hcls fill hin
      have h2 := hfill a (by simp)
      rw [h1] at h2
      exact Bool.noConfusion h2
    · exact ih fill (fun a2 ha2 => hfill a2 (List.mem_cons_of_mem a ha2)) hin

theorem atomsMatch_head : ∀ {a : Atom} {rest : List Atom} {u : List Char},
    AtomsMatch (a :: rest) u → 1 ≤ a.min →
    ∃ c cs, u = c :: cs ∧ a.cls c = true := by
  intro a rest u hm hmin1
  cases hm with
  | cons _ _ useg v hcls hmin hmax hrest =>
    cases useg with
    | nil => simp at hmin; omega
    | cons c cs0 =>
      exact ⟨c, cs0 ++ v, by simp, hcls c (by simp)⟩

theorem matchAtoms_pos (a : Atom) (rest : List Atom) (s : List Char) (n : Nat)
    (hmin : 1 ≤ a.min) (h : matchAtoms (a :: rest) s = some n) : 1 ≤ n := by
  obtain ⟨c, cs, hu, _⟩ := atomsMatch_head (matchAtoms_sound (a :: rest) s n h) hmin
  cases n with
  | zero => rw [List.take_zero] at hu; exact List.noConfusion hu
  | succ n => omega

theorem searchFrom_spec : ∀ (re : List Atom) (s : List Char) (p n : Nat),
    searchFrom re s = some (p, n) →
      matchAtoms re (s.drop p) = some n ∧
      ∀ q, q < p → matchAtoms re (s.drop q) = none := by
  intro re s
  induction s with
  | nil =>
    intro p n h
    cases hm : matchAtoms re [] with
    | none =>
      simp only [searchFrom, hm] at h
      exact Option.noConfusion h
    | some m =>
      simp only [searchFrom, hm, Option.some.injEq, Prod.mk.injEq] at h
      obtain ⟨h1, h2⟩ := h
      subst h1
      subst h2
      exact ⟨by rw [List.drop_nil]; exact hm, fun q hq => by omega⟩
  | cons c cs ih =>
    intro p n h
    cases hm : matchAtoms re (c :: cs) with
    | some m =>
      simp only [searchFrom, hm, Option.some.injEq, Prod.mk.injEq] at h
      obtain ⟨h1, h2⟩ := h
      subst h1
      subst h2
      exact ⟨by rw [List.drop_zero]; exact hm, fun q hq => by omega⟩
    | none =>
      cases hs : searchFrom re cs with
      | none =>
        simp only [searchFrom, hm, hs] at h
        exact Option.noConfusion h
      | some pn =>
        obtain ⟨p0, n0⟩ := pn
        simp only [searchFrom, hm, hs, Option.some.injEq, Prod.mk.injEq] at h
        obtain ⟨h1, h2⟩ := h
        subst h1
        subst h2
        obtain ⟨ih1, ih2⟩ := ih p0 n0 hs
        refine ⟨by rw [List.drop_succ_cons]; exact ih1, ?_⟩
        intro q hq
        cases q with
        | zero => rw [List.drop_zero]; exact hm
        | succ q => rw [List.drop_succ_cons]; exact ih2 q (by omega)

theorem searchFrom_none_spec : ∀ (re : List Atom) (s : List Char),
    searchFrom re s = none → ∀ q, matchAtoms re (s.drop q) = none := by
  intro re s
  induction s with
  | nil =>
    intro h q
    cases hm : matchAtoms re [] with
    | none => rw [List.drop_nil]; exact hm
    | some m =>
      simp only [searchFrom, hm] at h
      exact Option.noConfusion h
  | cons c cs ih =>
    intro h q
    cases hm : matchAtoms re (c :: cs) with
    | some m =>
      simp only [searchFrom, hm] at h
      exact Option.noConfusion h
    | none =>
      cases hs : searchFrom re cs with
      | some pn =>
        obtain ⟨p0, n0⟩ := pn
        simp only [searchFrom, hm, hs] at h
        exact Option.noConfusion h
      | none =>
        cases q with
        | zero => rw [List.drop_zero]; exact hm
        | succ q => rw [List.drop_succ_cons]; exact ih hs q

theorem searchFrom_none_of_all : ∀ (re : List Atom) (s : List Char),
    (∀ q, matchAtoms re (s.drop q) = none) → searchFrom re s = none := by
  intro re s
  induction s with
  | nil =>
    intro h
    have h0 := h 0
    rw [List.drop_nil] at h0
    simp only [searchFrom, h0]
  | cons c cs ih =>
    intro h
    have h0 := h 0
    rw [List.drop_zero] at h0
    have hrest : searchFrom re cs = none := by
      refine ih (fun q => ?_)
      have := h (q + 1)
      rw [List.drop_succ_cons] at this
      exact this
    simp only [searchFrom, h0, hrest]

theorem mem_of_getElem?_eq_some {l : List Char} {i : Nat} {a : Char}
    (h : l[i]? = some a) : a ∈ l := by
  have hi : i < l.length := by
    by_contra hi
    rw [List.getElem?_eq_none (by omega)] at h
    exact Option.noConfusion h
  rw [List.getElem?_eq_getElem hi] at h
  obtain rfl : l[i] = a := Option.some_injective _ h
  exact List.getElem_mem hi

theorem maskLoop_kills_matches (a0 : Atom) (rest0 : List Atom) (fill : Char)
    (hmin1 : 1 ≤ a0.min)
    (hfill : ∀ a ∈ (a0 :: rest0), a.cls fill = false) :
    ∀ (fuel : Nat) (s : List Char), s.length < fuel →
      ∀ q, matchAtoms (a0 :: rest0)
        ((maskLoop (a0 :: rest0) fill fuel s).drop q) = none := by
  intro fuel
  induction fuel with
  | zero => intro s hs; exact absurd hs (Nat.not_lt_zero _)
  | succ fuel ih =>
    intro s hs q
    cases hsf : searchFrom (a0 :: rest0) s with
    | none =>
      simp only [maskLoop, hsf]
      exact searchFrom_none_spec _ s hsf q
    | some pn =>
      obtain ⟨p, n⟩ := pn
      have hb := searchFrom_some_le _ s p n hsf
      obtain ⟨hat, hbefore⟩ := searchFrom_spec _ s p n hsf
      have hn1 : 1 ≤ n := matchAtoms_pos a0 rest0 (s.drop p) n hmin1 hat
      have hlenA : (s.take p).length = p := by
        simp only [List.length_take]
        omega
      have hlenAB : ((s.take p) ++ List.replicate n fill).length = p + n := by
        simp only [List.length_append, List.length_replicate]
        omega
      have hih : ∀ q2, matchAtoms (a0 :: rest0)
          ((maskLoop (a0 :: rest0) fill fuel (s.drop (p + n))).drop q2) = none := by
        intro q2
        exact ih (s.drop (p + n)) (by simp only [List.length_drop]; omega) q2
      simp only [maskLoop, hsf]
      rcases Nat.lt_or_ge q (p + n) with hq | hq
      · by_contra hne
        obtain ⟨n2, hn2⟩ := Option.ne_none_iff_exists.mp hne
        have hAM := matchAtoms_sound _ _ _ hn2.symm
        rcases Nat.lt_or_ge q p with hqp | hqp
        · -- q strictly inside the verbatim prefix
          have hle : n2 ≤ p - q := by
            by_contra hgt
            have hidx : ((((s.take p ++ List.replicate n fill) ++
                maskLoop (a0 :: rest0) fill fuel (s.drop (p + n))).drop q).take n2)[p - q]? =
                some fill := by
              rw [List.getElem?_take, if_pos (by omega), List.getElem?_drop]
              have hpq : q + (p - q) = p := by omega
              rw [hpq, List.getElem?_append, if_pos (by rw [hlenAB]; omega),
                List.getElem?_append, if_neg (by rw [hlenA]; omega),
                List.getElem?_replicate, hlenA, if_pos (by omega)]
            exact absurd (mem_of_getElem?_eq_some hidx)
              (atomsMatch_no_fill hAM fill hfill)
          have hu : (((s.take p ++ List.replicate n fill) ++
              maskLoop (a0 :: rest0) fill fuel (s.drop (p + n))).drop q).take n2 =
              (s.drop q).take n2 := by
            rw [List.append_assoc,
              List.drop_append_of_le_length (by rw [hlenA]; omega),
              List.take_append_of_le_length
                (by simp only [List.length_drop, hlenA]; omega),
              List.drop_take, List.take_take]
            congr 1
            omega
          obtain ⟨n3, hn3⟩ := matchAtoms_complete _ _ hAM ((s.drop q).drop n2)
          rw [hu, List.take_append_drop] at hn3
          rw [hbefore q hqp] at hn3
          exact Option.noConfusion hn3
        · -- q inside the replaced span: the suffix starts with the filler
          obtain ⟨c, cs, hu, hc⟩ := atomsMatch_head hAM hmin1
          have hn2pos : 0 < n2 := by
            by_contra h0
            have : n2 = 0 := by omega
            rw [this, List.take_zero] at hu
            exact List.noConfusion hu
          have hhead : (((s.take p ++ List.replicate n fill) ++
              maskLoop (a0 :: rest0) fill fuel (s.drop (p + n))).drop q)[0]? =
              some c := by
            have := congrArg (fun l => l[0]?) hu
            simp only at this
            rw [List.getElem?_take, if_pos hn2pos] at this
            rw [this]
            simp
          rw [List.getElem?_drop, Nat.add_zero, List.getElem?_append,
            if_pos (by rw [hlenAB]; omega), List.getElem?_append,
            if_neg (by rw [hlenA]; omega), List.getElem?_replicate, hlenA,
            if_pos (by omega)] at hhead
          obtain rfl : fill = c := Option.some_injective _ hhead
          have := hfill a0 (by simp)
          rw [hc] at this
          exact Bool.noConfusion this
      · -- q beyond the replaced span: inside the recursive output
        have hq2 : q = ((s.take p ++ List.replicate n fill)).length + (q - (p + n)) := by
          rw [hlenAB]
          omega
        rw [hq2, List.drop_append]
        exact hih _

theorem maskString_idem (a0 : Atom) (rest0 : List Atom) (fill : Char)
    (hmin1 : 1 ≤ a0.min) (hfill : ∀ a ∈ (a0 :: rest0), a.cls fill = false)
    (s : String) :
    maskString (a0 :: rest0) fill (maskString (a0 :: rest0) fill s) =
      maskString (a0 :: rest0) fill s := by
  have hkill := maskLoop_kills_matches a0 rest0 fill hmin1 hfill
    (s.data.length + 1) s.data (by omega)
  have hnone : searchFrom (a0 :: rest0)
      (maskLoop (a0 :: rest0) fill (s.data.length + 1) s.data) = none :=
    searchFrom_none_of_all _ _ hkill
  show String.mk (maskLoop (a0 :: rest0) fill
      ((maskLoop (a0 :: rest0) fill (s.data.length + 1) s.data).length + 1)
      (maskLoop (a0 :: rest0) fill (s.data.length + 1) s.data)) =
    String.mk (maskLoop (a0 :: rest0) fill (s.data.length + 1) s.data)
  rw [maskLoop_no_search _ _ _ _ hnone]

theorem catalog_src (k src : String)
    (h : List.lookup k [("APN", apnSrc), ("EMAIL", emailSrc), ("SSN", ssnSrc)] =
      some src) :
    src = apnSrc ∨ src = emailSrc ∨ src = ssnSrc := by
  simp only [List.lookup] at h
  split at h
  · exact Or.inl (Option.some_injective _ h).symm
  · split at h
    · exact Or.inr (Or.inl (Option.some_injective _ h).symm)
    · split at h
      · exact Or.inr (Or.inr (Option.some_injective _ h).symm)
      · exact Option.noConfusion h

/-- C8 counterexample: `'.'` is neither a digit nor alphanumeric, yet
masking `EMAIL` with it is not idempotent: the first pass turns
`a@b.cc@d.ee` into `......@d.ee`, and the filler dots then take part in a
fresh, longer match, so the second pass yields `...........`. -/
theorem mask_not_idempotent_for_dot :
    (RegexMaskingUdf.mask RegexMaskingUdf.initCtx (some "EMAIL")
      (some "a@b.cc@d.ee") (some ".")).1 = some "......@d.ee" ∧
    (RegexMaskingUdf.mask
      (RegexMaskingUdf.mask RegexMaskingUdf.initCtx (some "EMAIL")
        (some "a@b.cc@d.ee") (some ".")).2
      (some "EMAIL")
      (RegexMaskingUdf.mask RegexMaskingUdf.initCtx (some "EMAIL")
        (some "a@b.cc@d.ee") (some ".")).1
      (some ".")).1 = some "..........." ∧
    (("..........." : String) ≠ "......@d.ee") ∧
    isDigitC '.' = false ∧ isAlphaC '.' = false :=
  ⟨by decide, by decide, by decide, rfl, rfl⟩

/-- C8 amended: for each compiled catalog pattern, applying masking twice
with the same filler gives the same result as applying it once whenever
the filler matches none of the pattern's character classes — `'*'`
qualifies for all three patterns, but merely being non-digit and
non-alphanumeric does not (`'.'` lies in the e-mail classes, see the
counterexample).  Consequently the cached (asterisk) UDF applied to its
own output reproduces that output, for every key and input. -/
theorem mask_idempotent_catalog :
    (∀ (re : List Atom) (fill : Char),
      (re = apnAtoms ∨ re = emailAtoms ∨ re = ssnAtoms) →
      (∀ a ∈ re, a.cls fill = false) →
      ∀ s : String,
        maskString re fill (maskString re fill s) = maskString re fill s) ∧
    (∀ (k i out : String) (st' : CachedRegexMaskingUdf.RegexCacheState),
      CachedRegexMaskingUdf.mask CachedRegexMaskingUdf.initCache (some k) (some i) =
        (some out, st') →
      (CachedRegexMaskingUdf.mask st' (some k) (some out)).1 = some out) := by
  have hidem : ∀ (re : List Atom) (fill : Char),
      (re = apnAtoms ∨ re = emailAtoms ∨ re = ssnAtoms) →
      (∀ a ∈ re, a.cls fill = false) →
      ∀ s : String,
        maskString re fill (maskString re fill s) = maskString re fill s := by
    intro re fill hre hfill s
    rcases hre with rfl | rfl | rfl
    · exact maskString_idem _ _ fill (by decide) hfill s
    · exact maskString_idem _ _ fill (by decide) hfill s
    · exact maskString_idem _ _ fill (by decide) hfill s
  refine ⟨hidem, ?_⟩
  intro k i out st' h
  cases hp : CachedRegexMaskingUdf.regex_patterns.lookup k with
  | none =>
    have h0 : List.lookup k CachedRegexMaskingUdf.initCache.regex_map = none := rfl
    have hg : CachedRegexMaskingUdf.GetRegex CachedRegexMaskingUdf.initCache k =
        (none, CachedRegexMaskingUdf.initCache) := by
      simp only [CachedRegexMaskingUdf.GetRegex, h0, hp]
    simp only [CachedRegexMaskingUdf.mask, hg, Prod.mk.injEq] at h
    exact Option.noConfusion h.1
  | some src =>
    have hcases := catalog_src k src hp
    rcases hcases with rfl | rfl | rfl
    · have hg : CachedRegexMaskingUdf.GetRegex CachedRegexMaskingUdf.initCache k =
          (some apnAtoms, ⟨[(k, apnAtoms)]⟩) := by
        have h0 : List.lookup k CachedRegexMaskingUdf.initCache.regex_map = none := rfl
        simp only [CachedRegexMaskingUdf.GetRegex, h0, hp]
        rfl
      simp only [CachedRegexMaskingUdf.mask, hg, Prod.mk.injEq] at h
      obtain ⟨h1, h2⟩ := h
      obtain rfl : maskString apnAtoms '*' i = out := Option.some_injective _ h1
      subst h2
      rw [mask_cached_hit ⟨[(k, apnAtoms)]⟩ k _ apnAtoms (lookup_self _ _ _)]
      exact congrArg some (hidem apnAtoms '*' (Or.inl rfl) (by decide) i)
    · have hg : CachedRegexMaskingUdf.GetRegex CachedRegexMaskingUdf.initCache k =
          (some emailAtoms, ⟨[(k, emailAtoms)]⟩) := by
        have h0 : List.lookup k CachedRegexMaskingUdf.initCache.regex_map = none := rfl
        simp only [CachedRegexMaskingUdf.GetRegex, h0, hp]
        rfl
      simp only [CachedRegexMaskingUdf.mask, hg, Prod.mk.injEq] at h
      obtain ⟨h1, h2⟩ := h
      obtain rfl : maskString emailAtoms '*' i = out := Option.some_injective _ h1
      subst h2
      rw [mask_cached_hit ⟨[(k, emailAtoms)]⟩ k _ emailAtoms (lookup_self _ _ _)]
      exact congrArg some (hidem emailAtoms '*' (Or.inr (Or.inl rfl)) (by decide) i)
    · have hg : CachedRegexMaskingUdf.GetRegex CachedRegexMaskingUdf.initCache k =
          (some ssnAtoms, ⟨[(k, ssnAtoms)]⟩) := by
        have h0 : List.lookup k CachedRegexMaskingUdf.initCache.regex_map = none := rfl
        simp only [CachedRegexMaskingUdf.GetRegex, h0, hp]
        rfl
      simp only [CachedRegexMaskingUdf.mask, hg, Prod.mk.injEq] at h
      obtain ⟨h1, h2⟩ := h
      obtain rfl : maskString ssnAtoms '*' i = out := Option.some_injective _ h1
      subst h2
      rw [mask_cached_hit ⟨[(k, ssnAtoms)]⟩ k _ ssnAtoms (lookup_self _ _ _)]
      exact congrArg some (hidem ssnAtoms '*' (Or.inr (Or.inr rfl)) (by decide) i)

/-- Witness for C8 at a concrete call: masking the APN scenario twice
with `'*'` equals masking it once. -/
theorem mask_idempotent_catalog_witness :
    maskString apnAtoms '*' (maskString apnAtoms '*' "codes 1234 5678") =
      maskString apnAtoms '*' "codes 1234 5678" :=
  mask_idempotent_catalog.1 apnAtoms '*' (Or.inl rfl) (by decide) "codes 1234 5678"

/-- Witness for C2 at a concrete call: a fully non-null call on an
uninitialized scope emits (its error list grows) and returns null. -/
theorem error_channel_only_two_outcomes_witness :
    (RegexMaskingUdf.mask ⟨none, []⟩ (some "SSN") (some "x") (some "*")).1 = none :=
  (error_channel_only_two_outcomes.1 ⟨none, []⟩ (some "SSN") (some "x")
    (some "*")).2 (by decide)
